import Mathlib

/-!
# Verification of the fuefit command-line front-end (`fuefit/main.py`)

This file shallowly embeds the core logic of `fuefit/main.py`:

* the `KEY=VALUE` argument parser (`key_value_pair`, regex
  `^\s*([A-Za-z]\w*)\s*=\s*(.*)$`),
* the column-specifier parser (`column_specifier`, regex
  `^\s*([^(]+)\s*(\(([^)]+)\))?\s*$`),
* the option-cardinality check (`validate_opts`),
* the model-overlay loop of `build_and_validate_model`, together with the
  JSON-pointer `set_pointer` semantics of the `jsonpointer` dependency
  (contemporary 1.x release) that the loop calls, and
* the top-level error handling of `main` (exit codes 3 and 4, debug
  re-raise).

Strings are modelled as `String`/`List Char`; the regex character classes
`\s` and `\w` are modelled at their ASCII meaning.  Regular expressions are
embedded as deterministic scanners; where Python's backtracking could in
principle matter, the scanner implements the unique leftmost-greedy result
(derivations are given in comments at each definition).
-/

set_option maxHeartbeats 1000000

namespace Fuefit

/-! ## Character classes (ASCII reading of Python's `\s`, `[A-Za-z]`, `\w`) -/

/-- Python's `\s` on ASCII: space, tab, newline, carriage return,
vertical tab, form feed. -/
def isPySpace (c : Char) : Bool :=
  c == ' ' || c == '\t' || c == '\n' || c == '\r' || c == '\x0b' || c == '\x0c'

/-- The regex class `[A-Za-z]`. -/
def isAsciiLetter (c : Char) : Bool :=
  ('A'.toNat ≤ c.toNat && c.toNat ≤ 'Z'.toNat) ||
  ('a'.toNat ≤ c.toNat && c.toNat ≤ 'z'.toNat)

/-- The regex class `[0-9]`. -/
def isAsciiDigit (c : Char) : Bool :=
  '0'.toNat ≤ c.toNat && c.toNat ≤ '9'.toNat

/-- Python's `\w` on ASCII: `[A-Za-z0-9_]`. -/
def isWordChar (c : Char) : Bool :=
  isAsciiLetter c || isAsciiDigit c || c == '_'

theorem isPySpace_mem {c : Char} (h : isPySpace c = true) :
    c = ' ' ∨ c = '\t' ∨ c = '\n' ∨ c = '\r' ∨ c = '\x0b' ∨ c = '\x0c' := by
  simp only [isPySpace, Bool.or_eq_true, beq_iff_eq] at h
  tauto

theorem letter_not_space {c : Char} (h : isAsciiLetter c = true) :
    isPySpace c = false := by
  cases hs : isPySpace c with
  | false => rfl
  | true =>
    rcases isPySpace_mem hs with rfl | rfl | rfl | rfl | rfl | rfl <;>
      exact absurd h (by decide)

theorem word_not_space {c : Char} (h : isWordChar c = true) :
    isPySpace c = false := by
  cases hs : isPySpace c with
  | false => rfl
  | true =>
    rcases isPySpace_mem hs with rfl | rfl | rfl | rfl | rfl | rfl <;>
      exact absurd h (by decide)

theorem space_not_word {c : Char} (h : isPySpace c = true) :
    isWordChar c = false := by
  cases hw : isWordChar c with
  | false => rfl
  | true => rw [word_not_space hw] at h; exact absurd h (by decide)

theorem word_ne_eqsign {c : Char} (h : isWordChar c = true) : c ≠ '=' := by
  intro he; subst he; exact absurd h (by decide)

theorem space_ne_eqsign {c : Char} (h : isPySpace c = true) : c ≠ '=' := by
  rcases isPySpace_mem h with rfl | rfl | rfl | rfl | rfl | rfl <;> decide

/-! ## Generic list-scanning lemmas -/

theorem all_append_dropWhile {p : α → Bool} (w l : List α)
    (hw : w.all p = true) : (w ++ l).dropWhile p = l.dropWhile p := by
  induction w with
  | nil => rfl
  | cons c cs ih =>
    simp only [List.all_cons, Bool.and_eq_true] at hw
    simpa [List.dropWhile_cons_of_pos hw.1] using ih hw.2

theorem dropWhile_all_head {p : α → Bool} (w : List α) (c : α) (l : List α)
    (hw : w.all p = true) (hc : p c = false) :
    (w ++ c :: l).dropWhile p = c :: l := by
  rw [all_append_dropWhile w _ hw, List.dropWhile_cons_of_neg (by simp [hc])]

theorem takeWhile_all_head {p : α → Bool} (w : List α) (c : α) (l : List α)
    (hw : w.all p = true) (hc : p c = false) :
    (w ++ c :: l).takeWhile p = w := by
  induction w with
  | nil => exact List.takeWhile_cons_of_neg (by simp [hc])
  | cons a as ih =>
    simp only [List.all_cons, Bool.and_eq_true] at hw
    simp [List.takeWhile_cons_of_pos hw.1, ih hw.2]

theorem dropWhile_head_false {p : α → Bool} {l : List α} {c : α} {cs : List α}
    (h : l.dropWhile p = c :: cs) : p c = false := by
  induction l with
  | nil => simp at h
  | cons a as ih =>
    by_cases ha : p a
    · rw [List.dropWhile_cons_of_pos ha] at h; exact ih h
    · rw [List.dropWhile_cons_of_neg ha] at h
      cases h; simpa using ha

theorem all_takeWhile (p : α → Bool) (l : List α) :
    (l.takeWhile p).all p = true := by
  induction l with
  | nil => rfl
  | cons a as ih =>
    by_cases ha : p a
    · simp [List.takeWhile_cons_of_pos ha, ha, ih]
    · simp [List.takeWhile_cons_of_neg ha]

/-! ## The `KEY=VALUE` parser (`key_value_pair`, main.py lines 46-54)

The regex is `^\s*([A-Za-z]\w*)\s*=\s*(.*)$`.  Its leftmost-greedy match is
deterministic:

* `\s`, `\w` and `=` are pairwise disjoint character classes, so the greedy
  maximal munch for `^\s*`, `[A-Za-z]\w*` and the following `\s*` never has
  to backtrack.
* For `\s*(.*)$`, `.` matches every character except `'\n'`, and `$`
  matches at the end of the string or just before a terminal `'\n'`.
  With the greedy `\s*` consuming the maximal whitespace run, `(.*)$`
  succeeds iff the remaining characters contain no `'\n'` except possibly
  as the very last character.  Giving characters back from `\s*` to `.*`
  can never turn failure into success (an interior `'\n'` still blocks the
  match), so the greedy result is the unique match.
-/

/-- `(.*)$` at the current position (Python semantics: `.` excludes
newline, `$` accepts end-of-input or a single terminal newline). -/
def dotStarDollar : List Char → Option (List Char)
  | [] => some []
  | c :: rest =>
      if c = '\n' then (if rest = [] then some [] else none)
      else (dotStarDollar rest).map (c :: ·)

theorem dotStarDollar_sound : ∀ {r v : List Char},
    dotStarDollar r = some v → '\n' ∉ v ∧ (r = v ∨ r = v ++ ['\n'])
  | [], v, h => by
      simp only [dotStarDollar, Option.some.injEq] at h
      subst h; exact ⟨by simp, Or.inl rfl⟩
  | c :: rest, v, h => by
      simp only [dotStarDollar] at h
      by_cases hc : c = '\n'
      · subst hc
        by_cases hr : rest = []
        · subst hr
          simp at h
          subst h
          exact ⟨by simp, Or.inr rfl⟩
        · simp [hr] at h
      · simp only [if_neg hc, Option.map_eq_some'] at h
        obtain ⟨v', hv', rfl⟩ := h
        obtain ⟨hnl, hcase⟩ := dotStarDollar_sound hv'
        refine ⟨?_, ?_⟩
        · simp only [List.mem_cons, not_or]
          exact ⟨fun he => hc he.symm, hnl⟩
        · rcases hcase with rfl | rfl
          · exact Or.inl rfl
          · exact Or.inr (by simp)

theorem dotStarDollar_complete₁ : ∀ {v : List Char},
    '\n' ∉ v → dotStarDollar v = some v
  | [], _ => rfl
  | c :: v', h => by
      have hc : ¬ c = '\n' := by simp at h; exact fun he => h.1 he.symm
      have hv' : '\n' ∉ v' := by simp at h; exact h.2
      simp [dotStarDollar, if_neg hc, dotStarDollar_complete₁ hv']

theorem dotStarDollar_complete₂ : ∀ {v : List Char},
    '\n' ∉ v → dotStarDollar (v ++ ['\n']) = some v
  | [], _ => rfl
  | c :: v', h => by
      have hc : ¬ c = '\n' := by simp at h; exact fun he => h.1 he.symm
      have hv' : '\n' ∉ v' := by simp at h; exact h.2
      simp [dotStarDollar, if_neg hc, dotStarDollar_complete₂ hv']

/-- The regex match of `^\s*([A-Za-z]\w*)\s*=\s*(.*)$` on a character list;
`some (key, value)` holds the two capture groups. -/
def kvMatch (s : List Char) : Option (List Char × List Char) :=
  match s.dropWhile isPySpace with
  | [] => none
  | c :: rest =>
    if isAsciiLetter c then
      match (rest.dropWhile isWordChar).dropWhile isPySpace with
      | [] => none
      | d :: r2 =>
        if d = '=' then
          (dotStarDollar (r2.dropWhile isPySpace)).map
            (fun v => (c :: rest.takeWhile isWordChar, v))
        else none
    else none

/-- `key_value_pair` from main.py: returns `m.groups()` on a match and
raises `argparse.ArgumentTypeError` (the spec's `SyntaxError`) otherwise. -/
def key_value_pair (arg : String) : Except String (String × String) :=
  match kvMatch arg.data with
  | some (k, v) => .ok (String.mk k, String.mk v)
  | none => .error ("Not a KEY=VALUE syntax: " ++ arg)

/-- Shape of the first capture group `[A-Za-z]\w*`. -/
def keyShape (k : List Char) : Prop :=
  ∃ c cs, k = c :: cs ∧ isAsciiLetter c = true ∧ cs.all isWordChar = true

/-- Declarative characterization of a successful match of
`^\s*([A-Za-z]\w*)\s*=\s*(.*)$` with capture groups `k` and `v`:
leading whitespace `w1`, the key token `k`, whitespace `w2`, the `'='`,
whitespace `w3` (greedy, so `v` does not start with whitespace),
the value `v` (newline-free), and an optional terminal newline `t`. -/
def kvDecomp (s k v : List Char) : Prop :=
  ∃ w1 w2 w3 t,
    s = w1 ++ k ++ w2 ++ '=' :: (w3 ++ v ++ t) ∧
    w1.all isPySpace = true ∧ w2.all isPySpace = true ∧ w3.all isPySpace = true ∧
    keyShape k ∧ (t = [] ∨ t = ['\n']) ∧ '\n' ∉ v ∧
    (∀ c cs, v = c :: cs → isPySpace c = false)

theorem kvMatch_sound {s k v : List Char} (h : kvMatch s = some (k, v)) :
    kvDecomp s k v := by
  unfold kvMatch at h
  split at h
  · simp at h
  · rename_i c rest hd
    split at h
    · rename_i hlet
      split at h
      · simp at h
      · rename_i d r2 heq2
        split at h
        case isFalse => simp at h
        rename_i hdeq
        subst hdeq
        rw [Option.map_eq_some'] at h
        obtain ⟨v0, hdsd, hpair⟩ := h
        injection hpair with hk hv
        subst hk
        subst hv
        obtain ⟨hnl, hcase⟩ := dotStarDollar_sound hdsd
        have hs : s.takeWhile isPySpace ++ (c :: rest) = s := by
          conv_rhs => rw [← List.takeWhile_append_dropWhile isPySpace s]
          rw [hd]
        have hrest : rest.takeWhile isWordChar ++ rest.dropWhile isWordChar = rest :=
          List.takeWhile_append_dropWhile isWordChar rest
        have hu : (rest.dropWhile isWordChar).takeWhile isPySpace ++ ('=' :: r2)
            = rest.dropWhile isWordChar := by
          conv_rhs => rw [← List.takeWhile_append_dropWhile isPySpace
            (rest.dropWhile isWordChar)]
          rw [heq2]
        have hr2 : r2.takeWhile isPySpace ++ r2.dropWhile isPySpace = r2 :=
          List.takeWhile_append_dropWhile isPySpace r2
        obtain ⟨t, ht, hr3⟩ : ∃ t, (t = [] ∨ t = ['\n']) ∧
            r2.dropWhile isPySpace = v0 ++ t := by
          rcases hcase with hr3 | hr3
          · exact ⟨[], Or.inl rfl, by simpa using hr3⟩
          · exact ⟨['\n'], Or.inr rfl, hr3⟩
        refine ⟨s.takeWhile isPySpace, (rest.dropWhile isWordChar).takeWhile isPySpace,
          r2.takeWhile isPySpace, t, ?_, all_takeWhile _ _, all_takeWhile _ _,
          all_takeWhile _ _,
          ⟨c, rest.takeWhile isWordChar, rfl, hlet, all_takeWhile _ _⟩, ht, hnl, ?_⟩
        · calc s = s.takeWhile isPySpace ++ (c :: rest) := hs.symm
            _ = s.takeWhile isPySpace ++
                (c :: (rest.takeWhile isWordChar ++ rest.dropWhile isWordChar)) := by
                rw [hrest]
            _ = s.takeWhile isPySpace ++ (c :: (rest.takeWhile isWordChar ++
                ((rest.dropWhile isWordChar).takeWhile isPySpace ++ ('=' :: r2)))) := by
                rw [hu]
            _ = s.takeWhile isPySpace ++ (c :: (rest.takeWhile isWordChar ++
                ((rest.dropWhile isWordChar).takeWhile isPySpace ++
                  ('=' :: (r2.takeWhile isPySpace ++ (v0 ++ t)))))) := by
                rw [← hr3, hr2]
            _ = s.takeWhile isPySpace ++ (c :: rest.takeWhile isWordChar) ++
                (rest.dropWhile isWordChar).takeWhile isPySpace ++
                '=' :: (r2.takeWhile isPySpace ++ v0 ++ t) := by
                simp [List.append_assoc]
        · intro c' cs' hv0
          exact dropWhile_head_false (l := r2) (p := isPySpace)
            (by rw [hr3, hv0]; rfl)
    · simp at h

theorem kvMatch_complete {s k v : List Char} (h : kvDecomp s k v) :
    kvMatch s = some (k, v) := by
  obtain ⟨w1, w2, w3, t, hs, hw1, hw2, hw3, ⟨c, cs, hk, hlet, hcs⟩, ht, hnl, hv⟩ := h
  subst hk
  subst hs
  have hdrop1 : ((w1 ++ (c :: cs) ++ w2 ++ '=' :: (w3 ++ v ++ t)).dropWhile isPySpace)
      = c :: (cs ++ (w2 ++ '=' :: (w3 ++ v ++ t))) := by
    have := dropWhile_all_head (p := isPySpace) w1 c
      (cs ++ (w2 ++ '=' :: (w3 ++ v ++ t))) hw1 (letter_not_space hlet)
    simpa [List.append_assoc] using this
  unfold kvMatch
  rw [hdrop1]
  dsimp only
  rw [if_pos hlet]
  have hhead : ∃ d l, w2 ++ '=' :: (w3 ++ v ++ t) = d :: l ∧ isWordChar d = false := by
    cases w2 with
    | nil => exact ⟨'=', w3 ++ v ++ t, rfl, by decide⟩
    | cons d w2' =>
        have hd : isPySpace d = true := by
          simp only [List.all_cons, Bool.and_eq_true] at hw2
          exact hw2.1
        exact ⟨d, w2' ++ '=' :: (w3 ++ v ++ t), rfl, space_not_word hd⟩
  obtain ⟨d, l, hdl, hdw⟩ := hhead
  have hdropW : (cs ++ (w2 ++ '=' :: (w3 ++ v ++ t))).dropWhile isWordChar
      = w2 ++ '=' :: (w3 ++ v ++ t) := by
    rw [hdl, dropWhile_all_head cs d l hcs hdw, ← hdl]
  have htakeW : (cs ++ (w2 ++ '=' :: (w3 ++ v ++ t))).takeWhile isWordChar = cs := by
    rw [hdl, takeWhile_all_head cs d l hcs hdw]
  rw [hdropW, htakeW]
  have hdrop2 : (w2 ++ '=' :: (w3 ++ v ++ t)).dropWhile isPySpace
      = '=' :: (w3 ++ v ++ t) :=
    dropWhile_all_head w2 '=' (w3 ++ v ++ t) hw2 (by decide)
  rw [hdrop2]
  dsimp only
  rw [if_pos rfl]
  have hfinal : dotStarDollar ((w3 ++ v ++ t).dropWhile isPySpace) = some v := by
    cases hv0 : v with
    | nil =>
        subst hv0
        have hempty : (w3 ++ [] ++ t).dropWhile isPySpace = [] := by
          simp only [List.append_nil]
          rw [all_append_dropWhile w3 t hw3]
          rcases ht with rfl | rfl
          · rfl
          · rw [List.dropWhile_cons_of_pos (by decide)]
            rfl
        rw [hempty]
        rfl
    | cons c' cs' =>
        have hc' : isPySpace c' = false := hv c' cs' hv0
        have hstep : (w3 ++ (c' :: (cs' ++ t))).dropWhile isPySpace
            = c' :: (cs' ++ t) :=
          dropWhile_all_head w3 c' (cs' ++ t) hw3 hc'
        have hshape : (w3 ++ c' :: cs' ++ t).dropWhile isPySpace
            = (c' :: cs') ++ t := by
          rw [List.append_assoc]
          simpa using hstep
        rw [hshape]
        rw [hv0] at hnl
        rcases ht with rfl | rfl
        · simpa using dotStarDollar_complete₁ hnl
        · simpa using dotStarDollar_complete₂ hnl
  rw [hfinal]
  rfl

/-! ## Claim C6: acceptance/rejection boundary of `key_value_pair` -/

/-- Everything after the first `'='` of a string (the spec's phrase
"value is everything after the first `=`"). -/
def afterFirstEq (l : List Char) : List Char :=
  (l.dropWhile (fun c => c != '=')).drop 1

theorem letter_ne_eqsign {c : Char} (h : isAsciiLetter c = true) : c ≠ '=' := by
  intro he; subst he; exact absurd h (by decide)

/-- C6 (amended): `key_value_pair` succeeds exactly on the strings that
decompose as optional whitespace, a letter-led word-character key,
optional whitespace, `'='`, then — after the greedy whitespace run
following the `'='` — a newline-free value with at most one terminal
newline; the returned groups are the ones of the decomposition.  In
particular every string with no `'='`, and every string whose first
non-whitespace character is not a letter, is rejected with the
`Not a KEY=VALUE syntax` error. -/
theorem kv_match_characterization :
    (∀ s k v : List Char, kvMatch s = some (k, v) ↔ kvDecomp s k v) ∧
    (∀ arg : String, '=' ∉ arg.data →
      key_value_pair arg = .error ("Not a KEY=VALUE syntax: " ++ arg)) ∧
    (∀ arg : String, ∀ c cs, arg.data.dropWhile isPySpace = c :: cs →
      isAsciiLetter c = false →
      key_value_pair arg = .error ("Not a KEY=VALUE syntax: " ++ arg)) := by
  refine ⟨fun s k v => ⟨kvMatch_sound, kvMatch_complete⟩, ?_, ?_⟩
  · intro arg hne
    unfold key_value_pair
    cases hkv : kvMatch arg.data with
    | none => rfl
    | some kv =>
        obtain ⟨k, v⟩ := kv
        exfalso
        obtain ⟨w1, w2, w3, t, hs, _⟩ := kvMatch_sound hkv
        exact hne (by rw [hs]; simp)
  · intro arg c cs hd hlet
    have hnone : kvMatch arg.data = none := by
      unfold kvMatch
      rw [hd]
      dsimp only
      rw [if_neg (by simp [hlet])]
    unfold key_value_pair
    rw [hnone]

theorem kv_match_characterization_witness :
    key_value_pair "fuel" = .error ("Not a KEY=VALUE syntax: " ++ "fuel") :=
  kv_match_characterization.2.1 "fuel" (by decide)

/-- C6 counterexample: on `"a= b"` the parser succeeds with value `"b"`,
whereas everything after the first `'='` is `" b"`: the regex
`\s*` after the `'='` strips the leading whitespace of the value, so the
returned value is not "everything after the first `=`". -/
theorem kv_value_after_eq_counterexample :
    key_value_pair "a= b" = .ok ("a", "b") ∧
    afterFirstEq "a= b".data = " b".data ∧
    "b".data ≠ " b".data := by
  exact ⟨rfl, by decide, by decide⟩

/-! ## Claim C7: round-trip of accepted `KEY=VALUE` strings -/

/-- Remove trailing whitespace. -/
def rtrimSpace (l : List Char) : List Char :=
  (l.reverse.dropWhile isPySpace).reverse

/-- Remove leading and trailing whitespace (Python's `str.strip()`),
the spec's "trimming surrounding whitespace". -/
def pyStrip (l : List Char) : List Char :=
  rtrimSpace (l.dropWhile isPySpace)

/-- Remove a single terminal newline, if present. -/
def rstripNl (l : List Char) : List Char :=
  match l.getLast? with
  | some c => if c = '\n' then l.dropLast else l
  | none => l

/-- The normalization that `key_value_pair` actually performs on an
accepted input: drop leading whitespace, drop the whitespace around the
first `'='`, and drop a single terminal newline; trailing whitespace
before a terminal newline is kept as part of the value. -/
def normalizeKV (l : List Char) : List Char :=
  rtrimSpace ((l.takeWhile (fun c => c != '=')).dropWhile isPySpace) ++
    '=' :: rstripNl ((afterFirstEq l).dropWhile isPySpace)

theorem rtrimSpace_append {k w : List Char} (hw : w.all isPySpace = true)
    (hk : ∀ x ∈ k, isPySpace x = false) : rtrimSpace (k ++ w) = k := by
  unfold rtrimSpace
  rw [List.reverse_append]
  have hwr : w.reverse.all isPySpace = true := by
    rw [List.all_eq_true] at hw ⊢
    intro x hx
    exact hw x (List.mem_reverse.mp hx)
  rw [all_append_dropWhile _ _ hwr]
  cases hkr : k.reverse with
  | nil => simp [List.reverse_eq_nil_iff.mp hkr]
  | cons a as =>
      have ha : isPySpace a = false := hk a (by rw [← List.mem_reverse, hkr]; simp)
      rw [List.dropWhile_cons_of_neg (by simp [ha]), ← hkr, List.reverse_reverse]

theorem rstripNl_no_newline {l : List Char} (h : '\n' ∉ l) : rstripNl l = l := by
  unfold rstripNl
  cases hl : l.getLast? with
  | none => rfl
  | some c =>
      have hc : c ≠ '\n' := by
        intro he
        subst he
        exact h (List.mem_of_getLast?_eq_some hl)
      dsimp only
      rw [if_neg hc]

/-- C7 (amended): for every accepted input, `key ++ "=" ++ value` equals
the input normalized by removing leading whitespace, the whitespace
around the first `'='`, and one terminal newline — not by plain
surrounding-whitespace trimming. -/
theorem kv_roundtrip_normalized :
    ∀ s k v : List Char, kvMatch s = some (k, v) → k ++ '=' :: v = normalizeKV s := by
  intro s k v h
  obtain ⟨w1, w2, w3, t, hs, hw1, hw2, hw3, ⟨c, cs, hk, hlet, hcs⟩, ht, hnl, hv⟩ :=
    kvMatch_sound h
  subst hk
  have hsplit : s = (w1 ++ (c :: cs) ++ w2) ++ '=' :: (w3 ++ v ++ t) := by
    rw [hs]
  have hbefore : (w1 ++ (c :: cs) ++ w2).all (fun x => x != '=') = true := by
    rw [List.all_eq_true]
    intro x hx
    simp only [List.mem_append, List.mem_cons] at hx
    rw [bne_iff_ne]
    rcases hx with (hx | rfl | hx) | hx
    · exact space_ne_eqsign ((List.all_eq_true.mp hw1) x hx)
    · exact letter_ne_eqsign hlet
    · exact word_ne_eqsign ((List.all_eq_true.mp hcs) x hx)
    · exact space_ne_eqsign ((List.all_eq_true.mp hw2) x hx)
  have hA : s.takeWhile (fun c => c != '=') = w1 ++ (c :: cs) ++ w2 := by
    rw [hsplit]
    exact takeWhile_all_head _ _ _ hbefore (by decide)
  have hB : afterFirstEq s = w3 ++ v ++ t := by
    unfold afterFirstEq
    rw [hsplit, dropWhile_all_head _ _ _ hbefore (by decide)]
    rfl
  have hC : (w1 ++ (c :: cs) ++ w2).dropWhile isPySpace = (c :: cs) ++ w2 := by
    have := dropWhile_all_head (p := isPySpace) w1 c (cs ++ w2) hw1
      (letter_not_space hlet)
    rw [List.append_assoc]
    simpa [List.append_assoc] using this
  have hD : rtrimSpace ((c :: cs) ++ w2) = c :: cs := by
    refine rtrimSpace_append hw2 ?_
    intro x hx
    rcases List.mem_cons.mp hx with rfl | hx
    · exact letter_not_space hlet
    · exact word_not_space ((List.all_eq_true.mp hcs) x hx)
  have hE : rstripNl ((w3 ++ v ++ t).dropWhile isPySpace) = v := by
    cases hv0 : v with
    | nil =>
        subst hv0
        have hempty : (w3 ++ [] ++ t).dropWhile isPySpace = [] := by
          simp only [List.append_nil]
          rw [all_append_dropWhile w3 t hw3]
          rcases ht with rfl | rfl
          · rfl
          · rw [List.dropWhile_cons_of_pos (by decide)]
            rfl
        rw [hempty]
        rfl
    | cons c' cs' =>
        have hc' : isPySpace c' = false := hv c' cs' hv0
        have hstep : (w3 ++ (c' :: (cs' ++ t))).dropWhile isPySpace
            = c' :: (cs' ++ t) :=
          dropWhile_all_head w3 c' (cs' ++ t) hw3 hc'
        have hshape : (w3 ++ c' :: cs' ++ t).dropWhile isPySpace
            = (c' :: cs') ++ t := by
          rw [List.append_assoc]
          simpa using hstep
        rw [hshape]
        rw [hv0] at hnl
        rcases ht with rfl | rfl
        · rw [List.append_nil]
          exact rstripNl_no_newline hnl
        · show rstripNl ((c' :: cs') ++ ['\n']) = c' :: cs'
          unfold rstripNl
          rw [List.getLast?_concat]
          dsimp only
          rw [if_pos rfl, List.dropLast_concat]
  unfold normalizeKV
  rw [hA, hB, hC, hD, hE]

theorem kv_roundtrip_normalized_witness :
    "x".data ++ '=' :: "1".data = normalizeKV "x = 1".data :=
  kv_roundtrip_normalized "x = 1".data "x".data "1".data (by decide)

/-- C7 counterexample: `"a = b"` is accepted with groups `("a", "b")`,
its surrounding-whitespace trim is `"a = b"` itself, and
`"a" ++ "=" ++ "b"` is `"a=b"`, which differs: the parser also removes
the interior whitespace around the `'='`. -/
theorem kv_roundtrip_counterexample :
    key_value_pair "a = b" = .ok ("a", "b") ∧
    pyStrip "a = b".data = "a = b".data ∧
    "a".data ++ '=' :: "b".data ≠ "a = b".data := by
  exact ⟨rfl, by decide, by decide⟩

/-! ## The column-specifier parser (`column_specifier`, main.py lines 57-65)

The regex is `^\s*([^(]+)\s*(\(([^)]+)\))?\s*$` and the function returns
`m.groups()`, which has THREE entries: the name `[^(]+`, the whole
parenthesized group `\(([^)]+)\)` (or `None`), and its inner text (or
`None`).  The leftmost-greedy match is computed as follows:

* `[^)]+` inside the group: maximal munch, no backtracking possible.
* `\s*$`: since `\s` contains `'\n'`, this succeeds iff dropping the
  whitespace prefix leaves nothing.
* Between the name and the group, `\s*` never captures anything when the
  name group is maximal (because `[^(]` includes whitespace), and
  shrinking the name cannot turn failure into success: the optional
  group can only start at the unique first `'('`, and the trailing
  `\s*$` result is unchanged.  Hence only the leading `^\s*` ever
  backtracks, and only when the maximal-whitespace position starts with
  `'('` or is at the end of the string: then the engine gives exactly one
  whitespace character back, which becomes the (whitespace!) name.
-/

/-- The optional-group-and-anchor part `(\(([^)]+)\))?\s*$`, entered after
the `\s*` following the name.  Returns `none` on no match, `some none`
when the optional group is absent, `some (some (g2, g3))` with the outer
and inner captures when present. -/
def parenGroup (r : List Char) : Option (List Char × List Char × List Char) :=
  match r with
  | [] => none
  | c :: rest =>
    if c = '(' then
      match rest.dropWhile (fun x => x != ')') with
      | [] => none
      | d :: tail =>
        if d = ')' then
          (if (rest.takeWhile (fun x => x != ')')).isEmpty then none
           else some ('(' :: (rest.takeWhile (fun x => x != ')') ++ [')']),
                      rest.takeWhile (fun x => x != ')'), tail))
        else none
    else none

def afterName (r : List Char) : Option (Option (List Char × List Char)) :=
  match r.dropWhile isPySpace with
  | [] => some none
  | c :: rest =>
    if c = '(' then
      match parenGroup (c :: rest) with
      | some (g2, g3, tail) =>
          if (tail.dropWhile isPySpace).isEmpty then some (some (g2, g3)) else none
      | none => none
    else none

/-- The full leftmost-greedy match of `^\s*([^(]+)\s*(\(([^)]+)\))?\s*$`:
`some (g1, none)` or `some (g1, some (g2, g3))` on a match. -/
def colFull (s : List Char) : Option (List Char × Option (List Char × List Char)) :=
  match s.dropWhile isPySpace with
  | [] =>
      match (s.takeWhile isPySpace).getLast? with
      | some c => some ([c], none)
      | none => none
  | c :: rest =>
      if c = '(' then
        match (s.takeWhile isPySpace).getLast? with
        | some c' => (afterName (c :: rest)).map (fun u => ([c'], u))
        | none => none
      else
        (afterName ((c :: rest).dropWhile (fun x => x != '('))).map
          (fun u => ((c :: rest).takeWhile (fun x => x != '('), u))

/-- `column_specifier` from main.py: returns `m.groups()` (a 3-tuple) on
a match and raises `argparse.ArgumentTypeError` otherwise. -/
def column_specifier (arg : String) :
    Except String (String × Option String × Option String) :=
  match colFull arg.data with
  | some (g1, some (g2, g3)) =>
      .ok (String.mk g1, some (String.mk g2), some (String.mk g3))
  | some (g1, none) => .ok (String.mk g1, none, none)
  | none => .error ("Not a COLUMN_SPEC syntax: " ++ arg)

/-- C8 counterexample: `"Pnorm (kW)"` parses to the 3-tuple
`("Pnorm ", "(kW)", "kW")` — the name keeps its trailing space and the
middle group keeps its parentheses — not to `("Pnorm", "kW")`; and the
whitespace variants `"CM "` and `"CM"` parse differently. -/
theorem column_spec_counterexample :
    column_specifier "Pnorm (kW)" = .ok ("Pnorm ", some "(kW)", some "kW") ∧
    ("Pnorm " : String) ≠ "Pnorm" ∧
    colFull "CM ".data ≠ colFull "CM".data := by
  exact ⟨rfl, by decide, by decide⟩

/-- C8 (amended): `"CM"` parses to `("CM", none, none)` and
`"Pnorm (kW)"` to `("Pnorm ", some "(kW)", some "kW")`; the captured name
is never the empty string; and leading whitespace is insignificant
whenever the trimmed input is nonempty and does not start with `'('`
(trailing whitespace, by contrast, becomes part of the name). -/
theorem column_spec_behavior :
    column_specifier "CM" = .ok ("CM", none, none) ∧
    column_specifier "Pnorm (kW)" = .ok ("Pnorm ", some "(kW)", some "kW") ∧
    (∀ s g1 u, colFull s = some (g1, u) → g1 ≠ []) ∧
    (∀ w s : List Char, w.all isPySpace = true →
      (∃ c cs, s.dropWhile isPySpace = c :: cs ∧ (c == '(') = false) →
      colFull (w ++ s) = colFull s) := by
  refine ⟨rfl, rfl, ?_, ?_⟩
  · intro s g1 u h
    unfold colFull at h
    split at h
    · split at h
      · rename_i c hlast
        injection h with h1
        injection h1 with h2 h3
        rw [← h2]
        simp
      · simp at h
    · rename_i c rest hd
      split at h
      · split at h
        · rename_i c' hlast
          rw [Option.map_eq_some'] at h
          obtain ⟨u0, hu0, hpair⟩ := h
          injection hpair with h2 h3
          rw [← h2]
          simp
        · simp at h
      · rename_i hnp
        rw [Option.map_eq_some'] at h
        obtain ⟨u0, hu0, hpair⟩ := h
        injection hpair with h2 h3
        rw [← h2]
        rw [List.takeWhile_cons_of_pos (by simpa using hnp)]
        simp
  · intro w s hw hex
    obtain ⟨c, cs, hd, hc⟩ := hex
    have hc' : ¬ (c = '(') := by simpa using hc
    have hdw : (w ++ s).dropWhile isPySpace = s.dropWhile isPySpace :=
      all_append_dropWhile w s hw
    unfold colFull
    rw [hdw, hd]
    dsimp only
    rw [if_neg hc', if_neg hc']

theorem column_spec_behavior_witness :
    colFull (" ".data ++ "CM".data) = colFull "CM".data :=
  column_spec_behavior.2.2.2 " ".data "CM".data (by decide)
    ⟨'C', ['M'], by decide, by decide⟩

/-! ## Claim C1: option-cardinality validation (`validate_opts`, lines 155-172)

`argparse` builds, for each repeatable option, a list with one entry per
occurrence (`None` when absent, modelled as the empty list, which is
equally falsy in the `if (opt_val)` test).  For `-c`/`-r` each entry is a
list of parsed column 3-tuples, for `-I`/`-m` a list of key/value pairs.
-/

structure Opts where
  ifile : List String
  icolumns : List (List (String × Option String × Option String))
  irenames : List (List (String × Option String × Option String))
  iformat : List String
  I : List (List (String × String))
  m : List (List (String × String))
  debug : Bool

/-- Lines 160-163: one implicit stdin file when none is given. -/
def n_infiles (o : Opts) : Nat :=
  if o.ifile.isEmpty then 1 else o.ifile.length

/-- The `ValueError` message of line 170, `%i` rendered in decimal. -/
def cardErrMsg (ropt : String) (k n : Nat) : String :=
  "Number of --" ++ ropt ++ "(" ++ toString k ++
    ") mismatches number of --infile(" ++ toString n ++ ")!"

/-- Loop body of lines 165-170 for one related option: with `k = 0` the
`if (opt_val)` guard skips the check, which coincides with `1 < k` being
false. -/
def checkCard (n : Nat) (ropt : String) (k : Nat) : Except String Unit :=
  if 1 < k ∧ k ≠ n then .error (cardErrMsg ropt k n) else .ok ()

def validate_opts (o : Opts) : Except String Opts :=
  match checkCard (n_infiles o) "icolumns" o.icolumns.length with
  | .error e => .error e
  | .ok _ =>
    match checkCard (n_infiles o) "irenames" o.irenames.length with
    | .error e => .error e
    | .ok _ =>
      match checkCard (n_infiles o) "iformat" o.iformat.length with
      | .error e => .error e
      | .ok _ =>
        match checkCard (n_infiles o) "I" o.I.length with
        | .error e => .error e
        | .ok _ => .ok o

/-- The spec's cardinality rule for one option list. -/
def goodCard (k n : Nat) : Prop := k = 0 ∨ k = 1 ∨ k = n

theorem checkCard_ok {n k : Nat} {ropt : String} (h : goodCard k n) :
    checkCard n ropt k = .ok () := by
  unfold checkCard
  rw [if_neg]
  unfold goodCard at h
  omega

theorem checkCard_err {n k : Nat} {ropt : String} (h : ¬ goodCard k n) :
    checkCard n ropt k = .error (cardErrMsg ropt k n) := by
  unfold checkCard
  rw [if_pos]
  unfold goodCard at h
  omega

/-- C1: with at least one input file, `validate_opts` succeeds iff the
count of each of `icolumns`, `irenames`, `iformat` and `I` is 0, 1 or the
file count; otherwise it raises the `ValueError` naming the first
offending option, its count and the file count. -/
theorem validate_opts_cardinality (o : Opts) (h : o.ifile ≠ []) :
    (validate_opts o = .ok o ↔
      (goodCard o.icolumns.length o.ifile.length ∧
       goodCard o.irenames.length o.ifile.length ∧
       goodCard o.iformat.length o.ifile.length ∧
       goodCard o.I.length o.ifile.length)) ∧
    (¬ goodCard o.icolumns.length o.ifile.length →
      validate_opts o = .error (cardErrMsg "icolumns" o.icolumns.length o.ifile.length)) ∧
    (goodCard o.icolumns.length o.ifile.length →
      ¬ goodCard o.irenames.length o.ifile.length →
      validate_opts o = .error (cardErrMsg "irenames" o.irenames.length o.ifile.length)) ∧
    (goodCard o.icolumns.length o.ifile.length →
      goodCard o.irenames.length o.ifile.length →
      ¬ goodCard o.iformat.length o.ifile.length →
      validate_opts o = .error (cardErrMsg "iformat" o.iformat.length o.ifile.length)) ∧
    (goodCard o.icolumns.length o.ifile.length →
      goodCard o.irenames.length o.ifile.length →
      goodCard o.iformat.length o.ifile.length →
      ¬ goodCard o.I.length o.ifile.length →
      validate_opts o = .error (cardErrMsg "I" o.I.length o.ifile.length)) := by
  have hn : n_infiles o = o.ifile.length := by
    unfold n_infiles
    rw [if_neg]
    simp [List.isEmpty_iff, h]
  have hval : goodCard o.icolumns.length o.ifile.length →
      goodCard o.irenames.length o.ifile.length →
      goodCard o.iformat.length o.ifile.length →
      goodCard o.I.length o.ifile.length →
      validate_opts o = .ok o := by
    intro g1 g2 g3 g4
    unfold validate_opts
    rw [hn, checkCard_ok g1]
    dsimp only
    rw [checkCard_ok g2]
    dsimp only
    rw [checkCard_ok g3]
    dsimp only
    rw [checkCard_ok g4]
  have herr1 : ¬ goodCard o.icolumns.length o.ifile.length →
      validate_opts o = .error (cardErrMsg "icolumns" o.icolumns.length o.ifile.length) := by
    intro g1
    unfold validate_opts
    rw [hn, checkCard_err g1]
  have herr2 : goodCard o.icolumns.length o.ifile.length →
      ¬ goodCard o.irenames.length o.ifile.length →
      validate_opts o = .error (cardErrMsg "irenames" o.irenames.length o.ifile.length) := by
    intro g1 g2
    unfold validate_opts
    rw [hn, checkCard_ok g1]
    dsimp only
    rw [checkCard_err g2]
  have herr3 : goodCard o.icolumns.length o.ifile.length →
      goodCard o.irenames.length o.ifile.length →
      ¬ goodCard o.iformat.length o.ifile.length →
      validate_opts o = .error (cardErrMsg "iformat" o.iformat.length o.ifile.length) := by
    intro g1 g2 g3
    unfold validate_opts
    rw [hn, checkCard_ok g1]
    dsimp only
    rw [checkCard_ok g2]
    dsimp only
    rw [checkCard_err g3]
  have herr4 : goodCard o.icolumns.length o.ifile.length →
      goodCard o.irenames.length o.ifile.length →
      goodCard o.iformat.length o.ifile.length →
      ¬ goodCard o.I.length o.ifile.length →
      validate_opts o = .error (cardErrMsg "I" o.I.length o.ifile.length) := by
    intro g1 g2 g3 g4
    unfold validate_opts
    rw [hn, checkCard_ok g1]
    dsimp only
    rw [checkCard_ok g2]
    dsimp only
    rw [checkCard_ok g3]
    dsimp only
    rw [checkCard_err g4]
  refine ⟨⟨?_, fun hg => hval hg.1 hg.2.1 hg.2.2.1 hg.2.2.2⟩, herr1, herr2, herr3, herr4⟩
  intro hok
  by_cases g1 : goodCard o.icolumns.length o.ifile.length
  · by_cases g2 : goodCard o.irenames.length o.ifile.length
    · by_cases g3 : goodCard o.iformat.length o.ifile.length
      · by_cases g4 : goodCard o.I.length o.ifile.length
        · exact ⟨g1, g2, g3, g4⟩
        · rw [herr4 g1 g2 g3 g4] at hok
          exact Except.noConfusion hok
      · rw [herr3 g1 g2 g3] at hok
        exact Except.noConfusion hok
    · rw [herr2 g1 g2] at hok
      exact Except.noConfusion hok
  · rw [herr1 g1] at hok
    exact Except.noConfusion hok

def exampleOpts : Opts :=
  { ifile := ["engine_1.xlsx", "engine_2.csv", "engine_3.csv"]
    icolumns := [[("CM", none, none)]]
    irenames := []
    iformat := []
    I := []
    m := []
    debug := false }

theorem validate_opts_cardinality_witness :
    validate_opts exampleOpts = .ok exampleOpts :=
  (validate_opts_cardinality exampleOpts (by decide)).1.mpr
    ⟨Or.inr (Or.inl rfl), Or.inl rfl, Or.inl rfl, Or.inl rfl⟩

/-! ## The model-overlay engine (`build_and_validate_model`, lines 174-192)

The loop flattens the `-m` groups in order and applies
`jsonpointer.set_pointer(mdl, json_path, value)` for each pair, after
prepending the default base to relative paths.  `set_pointer` is the
external `jsonpointer` dependency (1.x, contemporary with this code):
the pointer must start with `'/'`, is split on `'/'`, each part is
unescaped (`~1` then `~0`), intermediate parts are walked (a missing
mapping member or bad list index raises `JsonPointerException` — the
spec's `PathResolutionError`), and the final part is assigned into the
parent container (insert-or-overwrite for mappings).  In that release
`set` has no end-of-list append: assigning at `'-'` or any non-index
string on a list fails, as does any assignment into a scalar; we model
every such failure as an error value.  The index validation is modelled
as all-decimal-digits (the library's regex check followed by `int()`).
In-place mutation is modelled by rebuilding the document along the
walked path. -/

inductive Json where
  | null
  | str (s : String)
  | num (n : Int)
  | obj (fields : List (String × Json))
  | arr (items : List Json)

/-- Mapping lookup (`doc[part]` on a `dict`). -/
def objGet : List (String × Json) → String → Option Json
  | [], _ => none
  | (k', v') :: rest, k => if k' = k then some v' else objGet rest k

/-- Mapping assignment `parent[part] = value`: overwrite in place, or
append a new key. -/
def objSet : List (String × Json) → String → Json → List (String × Json)
  | [], k, v => [(k, v)]
  | (k', v') :: rest, k, v =>
      if k' = k then (k, v) :: rest else (k', v') :: objSet rest k v

/-- List read `items[i]`. -/
def arrGet : List Json → Nat → Option Json
  | [], _ => none
  | x :: _, 0 => some x
  | _ :: xs, i + 1 => arrGet xs i

/-- List assignment `items[i] = v` (only used at valid indices). -/
def arrSet : List Json → Nat → Json → List Json
  | [], _, _ => []
  | _ :: xs, 0, v => v :: xs
  | x :: xs, i + 1, v => x :: arrSet xs i v

/-- The library's array-index validation followed by `int(part)`. -/
def parseArrIdx (part : String) : Option Nat :=
  if part.data ≠ [] ∧ part.data.all isAsciiDigit then
    some (part.data.foldl (fun acc c => acc * 10 + (c.toNat - '0'.toNat)) 0)
  else none

/-- Assignment of the final pointer part into its parent container. -/
def setLast (doc : Json) (part : String) (v : Json) : Except String Json :=
  match doc with
  | .obj fields => .ok (.obj (objSet fields part v))
  | .arr items =>
      match parseArrIdx part with
      | some i =>
          match arrGet items i with
          | some _ => .ok (.arr (arrSet items i v))
          | none => .error ("index '" ++ part ++ "' is out of range")
      | none => .error ("'" ++ part ++ "' is not a valid list index")
  | _ => .error ("document does not support indexing: " ++ part)

/-- `JsonPointer.set` on an already-split part list: walk all parts but
the last through existing containers, then assign the last part. -/
def setParts : Json → List String → Json → Except String Json
  | _, [], _ => .error "cannot set root in place"
  | doc, [part], v => setLast doc part v
  | doc, part :: q :: qs, v =>
      match doc with
      | .obj fields =>
          match objGet fields part with
          | some child =>
              match setParts child (q :: qs) v with
              | .ok child' => .ok (.obj (objSet fields part child'))
              | .error e => .error e
          | none => .error ("member '" ++ part ++ "' not found in document")
      | .arr items =>
          match parseArrIdx part with
          | some i =>
              match arrGet items i with
              | some child =>
                  match setParts child (q :: qs) v with
                  | .ok child' => .ok (.arr (arrSet items i child'))
                  | .error e => .error e
              | none => .error ("index '" ++ part ++ "' is out of range")
          | none => .error ("'" ++ part ++ "' is not a valid list index")
      | _ => .error ("document does not support indexing: " ++ part)

/-- Python's `pointer.split('/')`. -/
def splitSlash : List Char → List (List Char)
  | [] => [[]]
  | c :: rest =>
      match splitSlash rest with
      | [] => [[]]
      | g :: gs => if c = '/' then [] :: g :: gs else (c :: g) :: gs

/-- `part.replace('~1', '/')` (left-to-right, non-overlapping). -/
def unescapeTilde1 : List Char → List Char
  | '~' :: '1' :: rest => '/' :: unescapeTilde1 rest
  | c :: rest => c :: unescapeTilde1 rest
  | [] => []

/-- `part.replace('~0', '~')`. -/
def unescapeTilde0 : List Char → List Char
  | '~' :: '0' :: rest => '~' :: unescapeTilde0 rest
  | c :: rest => c :: unescapeTilde0 rest
  | [] => []

/-- `JsonPointer.__init__`: split on `'/'`, require a leading `'/'`
(the popped first element must be empty), unescape each part. -/
def parsePointer (pointer : String) : Except String (List String) :=
  match splitSlash pointer.data with
  | [] => .error "location must starts with /"
  | first :: rest =>
      if first = [] then
        .ok (rest.map (fun p => String.mk (unescapeTilde0 (unescapeTilde1 p))))
      else .error "location must starts with /"

/-- `jsonpointer.set_pointer(doc, pointer, value)`. -/
def set_pointer (doc : Json) (pointer : String) (value : Json) : Except String Json :=
  match parsePointer pointer with
  | .ok parts => setParts doc parts value
  | .error e => .error e

/-- Line 44 of main.py (named `_model_default_` + `prefix` there): the
string prepended to relative overlay paths. -/
def modelDefaultBase : String := "/engine/"

/-- Python's `json_path.startswith('/')`. -/
def startsWithSlash (p : String) : Bool :=
  match p.data with
  | c :: _ => c = '/'
  | [] => false

/-- Lines 185-186: relative paths get the default base prepended. -/
def normalizePath (json_path : String) : String :=
  if startsWithSlash json_path then json_path else modelDefaultBase ++ json_path

/-- Loop body of lines 184-187 for one `(json_path, value)` pair; the
value is written as the raw string produced by `key_value_pair`. -/
def applyOverride (mdl : Json) (ov : String × String) : Except String Json :=
  set_pointer mdl (normalizePath ov.1) (Json.str ov.2)

/-- The loop of lines 184-187: sequential application, first exception
aborts the run. -/
def applyOverrides : Json → List (String × String) → Except String Json
  | mdl, [] => .ok mdl
  | mdl, ov :: rest =>
      match applyOverride mdl ov with
      | .ok mdl' => applyOverrides mdl' rest
      | .error e => .error e

/-- Lines 181-187: flatten the `-m` groups in order
(`functools.reduce(lambda x,y: x+y, ...)`) and apply each overlay. -/
def build_model (mdl : Json) (m : List (List (String × String))) : Except String Json :=
  applyOverrides mdl (m.foldl (fun x y => x ++ y) [])

/-- One step of `JsonPointer.walk`: resolve a single part against a
container (used to read a value back out of the final document). -/
def walkPart (doc : Json) (part : String) : Except String Json :=
  match doc with
  | .obj fields =>
      match objGet fields part with
      | some child => .ok child
      | none => .error ("member '" ++ part ++ "' not found in document")
  | .arr items =>
      match parseArrIdx part with
      | some i =>
          match arrGet items i with
          | some child => .ok child
          | none => .error ("index '" ++ part ++ "' is out of range")
      | none => .error ("'" ++ part ++ "' is not a valid list index")
  | _ => .error ("document does not support indexing: " ++ part)

/-- Pointer resolution (`JsonPointer.resolve`) over an already-split
part list. -/
def getParts : Json → List String → Except String Json
  | doc, [] => .ok doc
  | doc, part :: rest =>
      match walkPart doc part with
      | .ok child => getParts child rest
      | .error e => .error e

/-! ## Structural lemmas about pointer assignment -/

theorem objGet_objSet_self (f : List (String × Json)) (k : String) (v : Json) :
    objGet (objSet f k v) k = some v := by
  induction f with
  | nil => simp [objGet, objSet]
  | cons kv rest ih =>
      obtain ⟨k', v'⟩ := kv
      by_cases hk : k' = k
      · simp [objGet, objSet, hk]
      · simp [objGet, objSet, hk, ih]

theorem objSet_objSet (f : List (String × Json)) (k : String) (v w : Json) :
    objSet (objSet f k v) k w = objSet f k w := by
  induction f with
  | nil => simp [objSet]
  | cons kv rest ih =>
      obtain ⟨k', v'⟩ := kv
      by_cases hk : k' = k
      · simp [objSet, hk]
      · simp [objSet, hk, ih]

theorem objSet_append {f : List (String × Json)} {k : String} (v : Json)
    (h : objGet f k = none) : objSet f k v = f ++ [(k, v)] := by
  induction f with
  | nil => rfl
  | cons kv rest ih =>
      obtain ⟨k', v'⟩ := kv
      by_cases hk : k' = k
      · simp [objGet, hk] at h
      · simp only [objGet, if_neg hk] at h
        simp [objSet, hk, ih h]

theorem arrGet_arrSet_self : ∀ (xs : List Json) (i : Nat) (x v : Json),
    arrGet xs i = some x → arrGet (arrSet xs i v) i = some v
  | [], i, x, v, h => by simp [arrGet] at h
  | y :: ys, 0, x, v, h => rfl
  | y :: ys, i + 1, x, v, h => by
      simp only [arrGet, arrSet]
      exact arrGet_arrSet_self ys i x v h

theorem arrSet_arrSet : ∀ (xs : List Json) (i : Nat) (v w : Json),
    arrSet (arrSet xs i v) i w = arrSet xs i w
  | [], _, _, _ => rfl
  | y :: ys, 0, v, w => rfl
  | y :: ys, i + 1, v, w => by
      simp only [arrSet]
      rw [arrSet_arrSet ys i v w]

theorem setLast_indep {doc d1 : Json} {part : String} {v1 : Json} (v2 : Json)
    (h : setLast doc part v1 = .ok d1) :
    setLast d1 part v2 = setLast doc part v2 := by
  cases doc with
  | obj fields =>
      simp only [setLast] at h
      injection h with h1
      subst h1
      simp only [setLast]
      rw [objSet_objSet]
  | arr items =>
      simp only [setLast] at h
      split at h
      · rename_i i hi
        split at h
        · rename_i x hx
          injection h with h1
          subst h1
          simp only [setLast]
          rw [hi]
          dsimp only
          rw [arrGet_arrSet_self items i x v1 hx, hx]
          dsimp only
          rw [arrSet_arrSet]
        · exact Except.noConfusion h
      · exact Except.noConfusion h
  | null => exact Except.noConfusion h
  | str s => exact Except.noConfusion h
  | num n => exact Except.noConfusion h

theorem setLast_err_indep {doc : Json} {part : String} {v1 : Json} (v2 : Json)
    {e : String} (h : setLast doc part v1 = .error e) :
    setLast doc part v2 = .error e := by
  cases doc with
  | obj fields => exact Except.noConfusion h
  | arr items =>
      simp only [setLast] at h ⊢
      split at h
      · rename_i i hi
        split at h
        · exact Except.noConfusion h
        · exact h
      · exact h
  | null => exact h
  | str s => exact h
  | num n => exact h

theorem setParts_indep : ∀ (parts : List String) (doc d1 : Json) (v1 v2 : Json),
    setParts doc parts v1 = .ok d1 → setParts d1 parts v2 = setParts doc parts v2
  | [], _, _, _, _, h => Except.noConfusion h
  | [part], doc, d1, v1, v2, h => setLast_indep v2 h
  | part :: q :: qs, doc, d1, v1, v2, h => by
      cases doc with
      | obj fields =>
          simp only [setParts] at h ⊢
          split at h
          · rename_i child hchild
            split at h
            · rename_i child' hchild'
              injection h with h1
              subst h1
              dsimp only
              rw [objGet_objSet_self]
              dsimp only
              rw [setParts_indep (q :: qs) child child' v1 v2 hchild']
              cases hx : setParts child (q :: qs) v2 with
              | ok c2 =>
                  dsimp only
                  rw [objSet_objSet]
              | error e => rfl
            · exact Except.noConfusion h
          · exact Except.noConfusion h
      | arr items =>
          simp only [setParts] at h ⊢
          split at h
          · rename_i i hi
            split at h
            · rename_i child hchild
              split at h
              · rename_i child' hchild'
                injection h with h1
                subst h1
                dsimp only
                rw [arrGet_arrSet_self items i child child' hchild]
                dsimp only
                rw [setParts_indep (q :: qs) child child' v1 v2 hchild']
                cases hx : setParts child (q :: qs) v2 with
                | ok c2 =>
                    dsimp only
                    rw [arrSet_arrSet]
                | error e => rfl
              · exact Except.noConfusion h
            · exact Except.noConfusion h
          · exact Except.noConfusion h
      | null => exact Except.noConfusion h
      | str s => exact Except.noConfusion h
      | num n => exact Except.noConfusion h

theorem setParts_err_indep : ∀ (parts : List String) (doc : Json) (v1 v2 : Json)
    (e : String), setParts doc parts v1 = .error e → setParts doc parts v2 = .error e
  | [], _, _, _, _, h => h
  | [part], doc, _, v2, _, h => setLast_err_indep v2 h
  | part :: q :: qs, doc, v1, v2, e, h => by
      cases doc with
      | obj fields =>
          simp only [setParts] at h ⊢
          split at h
          · rename_i child hchild
            split at h
            · exact Except.noConfusion h
            · rename_i e' he'
              injection h with h1
              rw [setParts_err_indep (q :: qs) child v1 v2 e' he']
              dsimp only
              rw [h1]
          · exact h
      | arr items =>
          simp only [setParts] at h ⊢
          split at h
          · rename_i i hi
            split at h
            · rename_i child hchild
              split at h
              · exact Except.noConfusion h
              · rename_i e' he'
                injection h with h1
                rw [setParts_err_indep (q :: qs) child v1 v2 e' he']
                dsimp only
                rw [h1]
            · exact h
          · exact h
      | null => exact h
      | str s => exact h
      | num n => exact h

theorem set_pointer_lww {doc d1 : Json} {path : String} {v1 : Json} (v2 : Json)
    (h : set_pointer doc path v1 = .ok d1) :
    set_pointer d1 path v2 = set_pointer doc path v2 := by
  unfold set_pointer at h ⊢
  cases hp : parsePointer path with
  | ok parts =>
      rw [hp] at h
      dsimp only at h ⊢
      exact setParts_indep parts doc d1 v1 v2 h
  | error e =>
      rw [hp] at h

theorem set_pointer_err_indep {doc : Json} {path : String} {v1 : Json} (v2 : Json)
    {e : String} (h : set_pointer doc path v1 = .error e) :
    set_pointer doc path v2 = .error e := by
  unfold set_pointer at h ⊢
  cases hp : parsePointer path with
  | ok parts =>
      rw [hp] at h
      dsimp only at h ⊢
      exact setParts_err_indep parts doc v1 v2 e h
  | error e' =>
      rw [hp] at h
      dsimp only at h ⊢
      exact h

theorem getParts_setParts : ∀ (parts : List String) (doc d v : Json),
    setParts doc parts v = .ok d → getParts d parts = .ok v
  | [], _, _, _, h => Except.noConfusion h
  | [part], doc, d, v, h => by
      cases doc with
      | obj fields =>
          simp only [setParts, setLast] at h
          injection h with h1
          subst h1
          simp only [getParts, walkPart]
          rw [objGet_objSet_self]
      | arr items =>
          simp only [setParts, setLast] at h
          split at h
          · rename_i i hi
            split at h
            · rename_i x hx
              injection h with h1
              subst h1
              simp only [getParts, walkPart]
              rw [hi]
              dsimp only
              rw [arrGet_arrSet_self items i x v hx]
            · exact Except.noConfusion h
          · exact Except.noConfusion h
      | null => exact Except.noConfusion h
      | str s => exact Except.noConfusion h
      | num n => exact Except.noConfusion h
  | part :: q :: qs, doc, d, v, h => by
      cases doc with
      | obj fields =>
          simp only [setParts] at h
          split at h
          · rename_i child hchild
            split at h
            · rename_i child' hchild'
              injection h with h1
              subst h1
              simp only [getParts, walkPart]
              rw [objGet_objSet_self]
              dsimp only
              exact getParts_setParts (q :: qs) child child' v hchild'
            · exact Except.noConfusion h
          · exact Except.noConfusion h
      | arr items =>
          simp only [setParts] at h
          split at h
          · rename_i i hi
            split at h
            · rename_i child hchild
              split at h
              · rename_i child' hchild'
                injection h with h1
                subst h1
                simp only [getParts, walkPart]
                rw [hi]
                dsimp only
                rw [arrGet_arrSet_self items i child child' hchild]
                dsimp only
                exact getParts_setParts (q :: qs) child child' v hchild'
              · exact Except.noConfusion h
            · exact Except.noConfusion h
          · exact Except.noConfusion h
      | null => exact Except.noConfusion h
      | str s => exact Except.noConfusion h
      | num n => exact Except.noConfusion h

theorem applyOverrides_append_ok : ∀ (ovs : List (String × String)) (mdl d : Json)
    (ovs' : List (String × String)), applyOverrides mdl ovs = .ok d →
    applyOverrides mdl (ovs ++ ovs') = applyOverrides d ovs'
  | [], mdl, d, ovs', h => by
      injection h with h1
      subst h1
      rfl
  | ov :: rest, mdl, d, ovs', h => by
      simp only [applyOverrides] at h
      simp only [List.cons_append, applyOverrides]
      cases h1 : applyOverride mdl ov with
      | ok m =>
          rw [h1] at h
          dsimp only at h ⊢
          exact applyOverrides_append_ok rest m d ovs' h
      | error e =>
          rw [h1] at h
          exact Except.noConfusion h

theorem applyOverrides_append_err : ∀ (ovs : List (String × String)) (mdl : Json)
    (e : String) (ovs' : List (String × String)), applyOverrides mdl ovs = .error e →
    applyOverrides mdl (ovs ++ ovs') = .error e
  | [], _, _, _, h => Except.noConfusion h
  | ov :: rest, mdl, e, ovs', h => by
      simp only [applyOverrides] at h
      simp only [List.cons_append, applyOverrides]
      cases h1 : applyOverride mdl ov with
      | ok m =>
          rw [h1] at h
          dsimp only at h ⊢
          exact applyOverrides_append_err rest m e ovs' h
      | error e' =>
          rw [h1] at h
          dsimp only at h ⊢
          exact h

/-! ## Claims C2-C5 and C10 about the overlay engine -/

/-- The spec's overlay example base document,
`{"engine": {"rpm_idle": 700}}`. -/
def exampleBase : Json :=
  Json.obj [("engine", Json.obj [("rpm_idle", Json.num 700)])]

/-- C2: an overlay path that does not begin with `'/'` has the literal
string `"/engine/"` prepended before the pointer-set; a path beginning
with `'/'` is applied unchanged. -/
theorem overlay_relative_path_rule :
    ∀ (mdl : Json) (p v : String),
      (startsWithSlash p = false →
        applyOverride mdl (p, v) = set_pointer mdl ("/engine/" ++ p) (Json.str v)) ∧
      (startsWithSlash p = true →
        applyOverride mdl (p, v) = set_pointer mdl p (Json.str v)) := by
  intro mdl p v
  constructor
  · intro h
    unfold applyOverride normalizePath
    rw [if_neg (by simp [h])]
    rfl
  · intro h
    unfold applyOverride normalizePath
    rw [if_pos h]

theorem overlay_relative_path_rule_witness :
    applyOverride (Json.obj []) ("rpm_idle", "850")
      = set_pointer (Json.obj []) ("/engine/" ++ "rpm_idle") (Json.str "850") :=
  (overlay_relative_path_rule (Json.obj []) "rpm_idle" "850").1 (by rfl)

/-- C3: `build_model` flattens the `-m` groups in order and applies the
overlays strictly in sequence (the append laws and the flatten
equation); two overlays whose paths have the same normalization — also
a relative and an absolute spelling of the same location — collapse to
the later one wherever they sit in the sequence; and after a successful
run the document holds, at the resolved path of the last overlay, that
overlay's value, whatever earlier (also non-adjacent) overlays wrote
there (last-writer-wins, no merging). -/
theorem overlay_order_lww :
    (∀ (mdl d : Json) (ovs ovs' : List (String × String)),
      applyOverrides mdl ovs = .ok d →
      applyOverrides mdl (ovs ++ ovs') = applyOverrides d ovs') ∧
    (∀ (mdl : Json) (ovs ovs' : List (String × String)) (e : String),
      applyOverrides mdl ovs = .error e →
      applyOverrides mdl (ovs ++ ovs') = .error e) ∧
    (∀ (mdl : Json) (g1 g2 : List (String × String)),
      build_model mdl [g1, g2] = build_model mdl [g1 ++ g2]) ∧
    (∀ (mdl : Json) (xs zs : List (String × String)) (p1 p2 v1 v2 : String),
      normalizePath p1 = normalizePath p2 →
      build_model mdl [xs ++ (p1, v1) :: (p2, v2) :: zs]
        = build_model mdl [xs ++ (p2, v2) :: zs]) ∧
    (∀ (mdl D : Json) (ovs : List (String × String)) (p v : String)
        (parts : List String),
      applyOverrides mdl (ovs ++ [(p, v)]) = .ok D →
      parsePointer (normalizePath p) = .ok parts →
      getParts D parts = .ok (Json.str v)) := by
  refine ⟨fun mdl d ovs ovs' h => applyOverrides_append_ok ovs mdl d ovs' h,
    fun mdl ovs ovs' e h => applyOverrides_append_err ovs mdl e ovs' h,
    fun mdl g1 g2 => rfl, ?_, ?_⟩
  · intro mdl xs zs p1 p2 v1 v2 hnorm
    show applyOverrides mdl (xs ++ (p1, v1) :: (p2, v2) :: zs)
        = applyOverrides mdl (xs ++ (p2, v2) :: zs)
    cases hx : applyOverrides mdl xs with
    | error e =>
        rw [applyOverrides_append_err xs mdl e ((p1, v1) :: (p2, v2) :: zs) hx,
          applyOverrides_append_err xs mdl e ((p2, v2) :: zs) hx]
    | ok d =>
        rw [applyOverrides_append_ok xs mdl d ((p1, v1) :: (p2, v2) :: zs) hx,
          applyOverrides_append_ok xs mdl d ((p2, v2) :: zs) hx]
        cases h1 : applyOverride d (p1, v1) with
        | ok m1 =>
            have hre : applyOverride m1 (p2, v2) = applyOverride d (p2, v2) := by
              unfold applyOverride at h1 ⊢
              rw [hnorm] at h1
              exact set_pointer_lww (Json.str v2) h1
            simp only [applyOverrides]
            rw [h1]
            dsimp only
            rw [hre]
        | error e =>
            have hre : applyOverride d (p2, v2) = .error e := by
              unfold applyOverride at h1 ⊢
              rw [hnorm] at h1
              exact set_pointer_err_indep (Json.str v2) h1
            simp only [applyOverrides]
            rw [h1, hre]
  · intro mdl D ovs p v parts h hparse
    cases hx : applyOverrides mdl ovs with
    | error e =>
        rw [applyOverrides_append_err ovs mdl e [(p, v)] hx] at h
        exact Except.noConfusion h
    | ok d =>
        rw [applyOverrides_append_ok ovs mdl d [(p, v)] hx] at h
        simp only [applyOverrides] at h
        cases h1 : applyOverride d (p, v) with
        | error e =>
            rw [h1] at h
            exact Except.noConfusion h
        | ok D' =>
            rw [h1] at h
            dsimp only at h
            injection h with hD
            subst hD
            unfold applyOverride set_pointer at h1
            dsimp only at h1
            rw [hparse] at h1
            dsimp only at h1
            exact getParts_setParts parts d D' (Json.str v) h1

theorem overlay_order_lww_witness :
    getParts (Json.obj [("engine", Json.obj [("rpm_idle", Json.str "900")])])
        ["engine", "rpm_idle"] = .ok (Json.str "900") :=
  overlay_order_lww.2.2.2.2 exampleBase
    (Json.obj [("engine", Json.obj [("rpm_idle", Json.str "900")])])
    [("rpm_idle", "700")] "rpm_idle" "900" ["engine", "rpm_idle"]
    (by rfl) (by rfl)

/-- C4: overlay values are written as the raw strings produced by the
`KEY=VALUE` parser; on the base `{"engine": {"rpm_idle": 700}}` the
relative overlay `("rpm_idle", "850")` stores the string "850" at
`/engine/rpm_idle`, and `("/engine/p_max", "660")` sets `/engine/p_max`
directly. -/
theorem overlay_raw_string_values :
    applyOverride exampleBase ("rpm_idle", "850")
      = .ok (Json.obj [("engine", Json.obj [("rpm_idle", Json.str "850")])]) ∧
    applyOverride exampleBase ("/engine/p_max", "660")
      = .ok (Json.obj [("engine",
          Json.obj [("rpm_idle", Json.num 700), ("p_max", Json.str "660")])]) :=
  ⟨rfl, rfl⟩

/-- C5: a pointer-set through an intermediate segment that is missing
from the mapping at that point fails with the error naming the
unresolved segment (and such an error propagates unchanged to the top);
the missing container is never created.  Concretely, overlaying
`/nonexistent/foo` onto the example base fails naming `nonexistent`. -/
theorem overlay_missing_parent :
    (∀ (fields : List (String × Json)) (p q : String) (qs : List String) (v : Json),
      objGet fields p = none →
      setParts (Json.obj fields) (p :: q :: qs) v
        = .error ("member '" ++ p ++ "' not found in document")) ∧
    (∀ (fields : List (String × Json)) (p q : String) (qs : List String)
        (child v : Json) (e : String),
      objGet fields p = some child →
      setParts child (q :: qs) v = .error e →
      setParts (Json.obj fields) (p :: q :: qs) v = .error e) ∧
    applyOverride exampleBase ("/nonexistent/foo", "1")
      = .error ("member '" ++ "nonexistent" ++ "' not found in document") := by
  refine ⟨?_, ?_, rfl⟩
  · intro fields p q qs v h
    simp only [setParts]
    rw [h]
  · intro fields p q qs child v e hc hrec
    simp only [setParts]
    rw [hc]
    dsimp only
    rw [hrec]

theorem overlay_missing_parent_witness :
    setParts (Json.obj [("engine", Json.obj [])]) ["nonexistent", "foo"] (Json.str "1")
      = .error ("member '" ++ "nonexistent" ++ "' not found in document") :=
  overlay_missing_parent.1 [("engine", Json.obj [])] "nonexistent" "foo" []
    (Json.str "1") rfl

/-- C10: when the intermediate segments all resolve, a pointer-set whose
final segment names a key absent from the parent mapping succeeds by
appending the new key to that mapping, and success propagates through the
existing containers; only a missing intermediate container fails. -/
theorem overlay_insert_new_key :
    (∀ (fields : List (String × Json)) (k : String) (v : Json),
      objGet fields k = none →
      setParts (Json.obj fields) [k] v = .ok (Json.obj (fields ++ [(k, v)]))) ∧
    (∀ (fields : List (String × Json)) (p q : String) (qs : List String)
        (child v child' : Json),
      objGet fields p = some child →
      setParts child (q :: qs) v = .ok child' →
      setParts (Json.obj fields) (p :: q :: qs) v
        = .ok (Json.obj (objSet fields p child'))) ∧
    set_pointer (Json.obj [("engine", Json.obj [])]) "/engine/p_max" (Json.str "660")
      = .ok (Json.obj [("engine", Json.obj [("p_max", Json.str "660")])]) := by
  refine ⟨?_, ?_, rfl⟩
  · intro fields k v h
    simp only [setParts, setLast]
    rw [objSet_append v h]
  · intro fields p q qs child v child' hc hrec
    simp only [setParts]
    rw [hc]
    dsimp only
    rw [hrec]

theorem overlay_insert_new_key_witness :
    setParts (Json.obj [("rpm_idle", Json.num 700)]) ["p_max"] (Json.str "660")
      = .ok (Json.obj [("rpm_idle", Json.num 700), ("p_max", Json.str "660")]) :=
  overlay_insert_new_key.1 [("rpm_idle", Json.num 700)] "p_max" (Json.str "660") rfl

/-! ## Claim C9: top-level error handling of `main` (lines 109-152)

The `try`/`except` ladder of `main`: `SystemExit` always re-raises; a
`ValueError` calls `parser.exit(3, message)` unless debug is set, in
which case it re-raises; a `jsonschema.ValidationError` (not a
`ValueError` subclass) likewise exits with 4.  `parser.exit(status,
message)` prints the message once to stderr and terminates the process
with the status. -/

inductive RunError where
  | valueError (msg : String)
  | validationError (msg : String)
  | systemExit (code : Nat)

inductive MainResult where
  | finished
  | exited (code : Nat) (msg : String)
  | raised (e : RunError)

/-- Line 111: `program_name = 'fuefit'`. -/
def program_name : String := "fuefit"

/-- Lines 146 and 151: `indent = len(program_name) * " "`. -/
def indentFor (pn : String) : String :=
  String.mk (List.replicate pn.length ' ')

/-- The exception dispatch of lines 139-152 over the outcome of the run
body (lines 119-137). -/
def handle_main_errors (pn : String) (debug : Bool) (r : Except RunError Unit) :
    MainResult :=
  match r with
  | .ok _ => .finished
  | .error (.systemExit c) => .raised (.systemExit c)
  | .error (.valueError msg) =>
      if debug then .raised (.valueError msg)
      else .exited 3 (pn ++ ": " ++ msg ++ "\n" ++ indentFor pn ++
        "  for help use --help\n")
  | .error (.validationError msg) =>
      if debug then .raised (.validationError msg)
      else .exited 4 (pn ++ ": Model validation failed due to: " ++ msg ++ "\n" ++
        indentFor pn ++ "  for help use --help\n")

/-- C9: with debug off, a configuration `ValueError` exits with code 3
and a schema `ValidationError` with code 4, each printing a single
message prefixed with the program name; with debug on, the original
exception propagates instead. -/
theorem main_error_handling :
    ∀ msg : String,
      (handle_main_errors program_name false (.error (.valueError msg))
        = .exited 3 (program_name ++ ": " ++ msg ++ "\n" ++
            indentFor program_name ++ "  for help use --help\n")) ∧
      (handle_main_errors program_name false (.error (.validationError msg))
        = .exited 4 (program_name ++ ": Model validation failed due to: " ++
            msg ++ "\n" ++ indentFor program_name ++ "  for help use --help\n")) ∧
      (∀ code m, handle_main_errors program_name false (.error (.valueError msg))
          = .exited code m → m.data.take program_name.length = program_name.data) ∧
      (∀ code m, handle_main_errors program_name false (.error (.validationError msg))
          = .exited code m → m.data.take program_name.length = program_name.data) ∧
      (handle_main_errors program_name true (.error (.valueError msg))
        = .raised (.valueError msg)) ∧
      (handle_main_errors program_name true (.error (.validationError msg))
        = .raised (.validationError msg)) := by
  intro msg
  refine ⟨rfl, rfl, ?_, ?_, rfl, rfl⟩
  · intro code m h
    injection h with hcode hm
    subst hm
    rw [String.data_append]
    exact List.take_left' rfl
  · intro code m h
    injection h with hcode hm
    subst hm
    rw [String.data_append]
    exact List.take_left' rfl

theorem main_error_handling_witness :
    (program_name ++ ": boom\n" ++ indentFor program_name ++
        "  for help use --help\n").data.take program_name.length
      = program_name.data :=
  (main_error_handling "boom").2.2.1 3
    (program_name ++ ": boom\n" ++ indentFor program_name ++
      "  for help use --help\n") (by rfl)

end Fuefit
